import Mathlib

/-!
Verification of the fuzzy-logic-search query algebra.

The repository sources contain the old `AlgebraicSearchEngine` evaluators
(`dev/old/algebraic_ranked_search.md`, `old/algebraic_search_newer.ipynb`)
as executable listings, the Sphinx API declarations of
`BooleanQuery` / `FuzzyBooleanQuery` / `ResultQuery`
(`docs/docs/source/algebraic_search.html`), a notebook exercising
`FuzzyQuery` with recorded outputs, and the README with the default
membership functions.  The Python modules `fuzzy_query.py`,
`fuzzy_set_mods.py` and `default_preds.py` themselves are not among the
sources; where a claim depends on them the definitions below are modelled
from the specification (each such definition says so in its doc comment).
The `AlgebraicSearchEngine` evaluators are translated directly from the
listings in the sources.
-/

set_option maxRecDepth 8000

/-- Python exception classes relevant to the error-surface claims:
the engine listings raise `ValueError`, list indexing out of range raises
`IndexError`, and the specification speaks of `NameError`-class failures. -/
inductive PyErr where
  | valueError (msg : String)
  | indexError
  | nameError (msg : String)
deriving DecidableEq

/-- Connective operators of the query AST (n-ary `and` / `or`). -/
inductive ConnOp where
  | and
  | or
deriving DecidableEq

/-- Linguistic hedges (modifiers) of the fuzzy query language. -/
inductive ModKind where
  | very
  | somewhat
  | slightly
  | extremely
deriving DecidableEq

/-- Query AST: tagged variant with `Atom`, n-ary `Connective`, unary
`Negation` and unary `Modifier` nodes, as in the data model of the
specification and the nested-list representation printed by the
`FuzzyQuery` notebook. -/
inductive Query where
  | atom (t : String)
  | conn (op : ConnOp) (children : List Query)
  | neg (child : Query)
  | mod (m : ModKind) (child : Query)

/-- Modelled from the spec: the linguistic-hedge functions of the absent
`fuzzy_set_mods.py`, as documented in `ResultQuery`: `very` squares the
degree of membership, `somewhat` takes the square root, `slightly` takes
the 10th root (power 0.1), `extremely` cubes. -/
noncomputable def modFun : ModKind → ℝ → ℝ
  | .very => fun x => x ^ 2
  | .somewhat => fun x => Real.sqrt x
  | .slightly => fun x => x ^ (0.1 : ℝ)
  | .extremely => fun x => x ^ 3

/-- Score combination of a connective: `and` is `min`, `or` is `max`
(`FuzzyBooleanQuery.nary_ops`). -/
noncomputable def connFun : ConnOp → ℝ → ℝ → ℝ
  | .and => min
  | .or => max

/-- Result algebra `and`: element-wise minimum of two score vectors
(`ResultQuery` operator overload). -/
noncomputable def rAnd (v w : List ℝ) : List ℝ := List.zipWith min v w

/-- Result algebra `or`: element-wise maximum of two score vectors
(`ResultQuery` operator overload). -/
noncomputable def rOr (v w : List ℝ) : List ℝ := List.zipWith max v w

/-- Result algebra `not`: element-wise complement `1 - x`
(`ResultQuery` operator overload). -/
def rNot (v : List ℝ) : List ℝ := v.map (fun x => 1 - x)

/-- Result algebra modifier: apply a hedge element-wise
(`ResultQuery` fuzzy operations). -/
noncomputable def rMod (m : ModKind) (v : List ℝ) : List ℝ := v.map (modFun m)

mutual
/-- Modelled from the spec: the structural evaluator of the absent
`fuzzy_query.py` / `fuzzy_boolean_query.py` (section 4.5 of the spec):
an atom scores each document with the ranker, an n-ary connective reduces
the children's vectors element-wise with `min` / `max`, negation takes the
element-wise complement, a modifier applies its hedge element-wise. -/
noncomputable def eval (r : String → List String → ℝ) (d : List (List String)) :
    Query → List ℝ
  | .atom t => d.map (r t)
  | .conn op cs =>
    match evalList r d cs with
    | [] => []
    | v :: vs => vs.foldl (List.zipWith (connFun op)) v
  | .neg c => (eval r d c).map (fun x => 1 - x)
  | .mod m c => (eval r d c).map (modFun m)

/-- Evaluate a list of child queries in order. -/
noncomputable def evalList (r : String → List String → ℝ) (d : List (List String)) :
    List Query → List (List ℝ)
  | [] => []
  | q :: qs => eval r d q :: evalList r d qs
end

/-- Default crisp ranker of `FuzzyBooleanQuery.eval`: 1.0 if the term is in
the document, otherwise 0.0. -/
def crispRanker (t : String) (doc : List String) : ℝ :=
  if t ∈ doc then 1 else 0

/-- C1: evaluation is a homomorphism from the query algebra to the result
algebra: `eval (and Q1 Q2)` is the element-wise minimum of the evaluations,
`eval (or Q1 Q2)` the element-wise maximum, `eval (not Q1)` the element-wise
complement, and every modifier commutes with evaluation element-wise. -/
theorem eval_query_result_hom (r : String → List String → ℝ)
    (d : List (List String)) (q1 q2 : Query) :
    eval r d (.conn .and [q1, q2]) = rAnd (eval r d q1) (eval r d q2)
    ∧ eval r d (.conn .or [q1, q2]) = rOr (eval r d q1) (eval r d q2)
    ∧ eval r d (.neg q1) = rNot (eval r d q1)
    ∧ ∀ m : ModKind, eval r d (.mod m q1) = rMod m (eval r d q1) := by
  refine ⟨?_, ?_, rfl, fun m => rfl⟩ <;>
    simp [eval, evalList, rAnd, rOr, connFun]

mutual
/-- Well-formedness invariant of the data model: every connective has at
least one child (negation and modifiers are unary by construction here). -/
def WF : Query → Prop
  | .atom _ => True
  | .conn _ cs => cs ≠ [] ∧ WFList cs
  | .neg c => WF c
  | .mod _ c => WF c

/-- All queries of a list are well-formed. -/
def WFList : List Query → Prop
  | [] => True
  | q :: qs => WF q ∧ WFList qs
end

theorem wflist_mem : ∀ (qs : List Query), WFList qs → ∀ q ∈ qs, WF q := by
  intro qs
  induction qs with
  | nil => intro _ q hq; cases hq
  | cons p ps ih =>
    intro h q hq
    rw [List.mem_cons] at hq
    rcases hq with rfl | hq
    · exact h.1
    · exact ih h.2 q hq

theorem evalList_eq_map (r : String → List String → ℝ) (d : List (List String)) :
    ∀ qs : List Query, evalList r d qs = qs.map (eval r d) := by
  intro qs
  induction qs with
  | nil => rfl
  | cons q qs ih => simp [evalList, ih]

theorem getD_zipWith_eq (f : ℝ → ℝ → ℝ) (hf : f 0 0 = 0) :
    ∀ (v w : List ℝ), w.length = v.length → ∀ i : ℕ,
      (List.zipWith f v w).getD i 0 = f (v.getD i 0) (w.getD i 0) := by
  intro v
  induction v with
  | nil =>
    intro w hw i
    cases w with
    | nil => simpa using hf.symm
    | cons b w => simp at hw
  | cons a v ih =>
    intro w hw i
    cases w with
    | nil => simp at hw
    | cons b w =>
      cases i with
      | zero => simp
      | succ i => simpa using ih w (by simpa using hw) i

theorem foldl_zipWith_length (f : ℝ → ℝ → ℝ) :
    ∀ (vs : List (List ℝ)) (v : List ℝ), (∀ w ∈ vs, w.length = v.length) →
      (vs.foldl (List.zipWith f) v).length = v.length := by
  intro vs
  induction vs with
  | nil => intro v _; rfl
  | cons w vs ih =>
    intro v h
    have hw : w.length = v.length := h w (by simp)
    have hz : (List.zipWith f v w).length = v.length := by
      simp [List.length_zipWith, hw]
    rw [List.foldl_cons, ih (List.zipWith f v w)
      (fun u hu => by rw [hz]; exact h u (by simp [hu])), hz]

theorem foldl_zipWith_getD (f : ℝ → ℝ → ℝ) (hf : f 0 0 = 0) :
    ∀ (vs : List (List ℝ)) (v : List ℝ), (∀ w ∈ vs, w.length = v.length) →
      ∀ i : ℕ,
      (vs.foldl (List.zipWith f) v).getD i 0
        = (vs.map (fun w => w.getD i 0)).foldl f (v.getD i 0) := by
  intro vs
  induction vs with
  | nil => intro v _ i; rfl
  | cons w vs ih =>
    intro v h i
    have hw : w.length = v.length := h w (by simp)
    have hz : (List.zipWith f v w).length = v.length := by
      simp [List.length_zipWith, hw]
    rw [List.foldl_cons, List.map_cons, List.foldl_cons,
      ih (List.zipWith f v w) (fun u hu => by rw [hz]; exact h u (by simp [hu])) i,
      getD_zipWith_eq f hf v w hw i]

theorem eval_len_aux (r : String → List String → ℝ) (d : List (List String)) :
    ∀ (n : ℕ) (q : Query), sizeOf q ≤ n → WF q → (eval r d q).length = d.length := by
  intro n
  induction n with
  | zero =>
    intro q hq _
    exfalso
    cases q <;> simp_arith at hq
  | succ n ih =>
    intro q hq hw
    match q with
    | .atom t => simp [eval]
    | .neg c =>
      have hc : sizeOf c ≤ n := by simp_arith at hq; omega
      simp [eval, ih c hc hw]
    | .mod m c =>
      have hc : sizeOf c ≤ n := by simp_arith at hq; omega
      simp [eval, ih c hc hw]
    | .conn op cs =>
      match cs, hw with
      | c :: cs, hw =>
        have hsplit : sizeOf (c :: cs) = 1 + sizeOf c + sizeOf cs := by simp_arith
        have hsz : sizeOf (c :: cs) ≤ n := by simp_arith at hq; omega
        have hc : sizeOf c ≤ n := by omega
        have hmem : ∀ q ∈ cs, sizeOf q ≤ n := by
          intro q hqm
          have := List.sizeOf_lt_of_mem hqm
          omega
        have hwf := hw.2
        have hcwf : WF c := hwf.1
        have hcswf : ∀ q ∈ cs, WF q := wflist_mem cs hwf.2
        have hlen : ∀ w ∈ (cs.map (eval r d)), w.length = (eval r d c).length := by
          intro w hwm
          rcases List.mem_map.mp hwm with ⟨q, hqm, rfl⟩
          rw [ih q (hmem q hqm) (hcswf q hqm), ih c hc hcwf]
        calc (eval r d (.conn op (c :: cs))).length
            = ((cs.map (eval r d)).foldl (List.zipWith (connFun op)) (eval r d c)).length := by
              simp [eval, evalList_eq_map]
          _ = (eval r d c).length := foldl_zipWith_length _ _ _ hlen
          _ = d.length := ih c hc hcwf

theorem eval_len (r : String → List String → ℝ) (d : List (List String))
    (q : Query) (hw : WF q) : (eval r d q).length = d.length :=
  eval_len_aux r d (sizeOf q) q le_rfl hw

/-- C2: on a well-formed connective node the evaluator returns, at every
position, the minimum of the children's scores at that position when the
operator is `and`, and the maximum when the operator is `or`. -/
theorem eval_connective_minmax (r : String → List String → ℝ)
    (d : List (List String)) (c : Query) (cs : List Query)
    (hc : WF c) (hcs : ∀ q ∈ cs, WF q) (i : ℕ) :
    (eval r d (.conn .and (c :: cs))).getD i 0
      = (cs.map (fun q => (eval r d q).getD i 0)).foldl min ((eval r d c).getD i 0)
    ∧ (eval r d (.conn .or (c :: cs))).getD i 0
      = (cs.map (fun q => (eval r d q).getD i 0)).foldl max ((eval r d c).getD i 0) := by
  have hlen : ∀ w ∈ (cs.map (eval r d)), w.length = (eval r d c).length := by
    intro w hwm
    rcases List.mem_map.mp hwm with ⟨q, hqm, rfl⟩
    rw [eval_len r d q (hcs q hqm), eval_len r d c hc]
  constructor
  · calc (eval r d (.conn .and (c :: cs))).getD i 0
        = ((cs.map (eval r d)).foldl (List.zipWith min) (eval r d c)).getD i 0 := by
          simp [eval, evalList_eq_map, connFun]
      _ = ((cs.map (eval r d)).map (fun w => w.getD i 0)).foldl min
            ((eval r d c).getD i 0) :=
          foldl_zipWith_getD min (by simp) _ _ hlen i
      _ = (cs.map (fun q => (eval r d q).getD i 0)).foldl min
            ((eval r d c).getD i 0) := by
          rw [List.map_map]; rfl
  · calc (eval r d (.conn .or (c :: cs))).getD i 0
        = ((cs.map (eval r d)).foldl (List.zipWith max) (eval r d c)).getD i 0 := by
          simp [eval, evalList_eq_map, connFun]
      _ = ((cs.map (eval r d)).map (fun w => w.getD i 0)).foldl max
            ((eval r d c).getD i 0) :=
          foldl_zipWith_getD max (by simp) _ _ hlen i
      _ = (cs.map (fun q => (eval r d q).getD i 0)).foldl max
            ((eval r d c).getD i 0) := by
          rw [List.map_map]; rfl

/-- Witness for C2 at a concrete connective, ranker, document set and index. -/
theorem eval_connective_minmax_witness :
    (eval crispRanker [["a"]] (.conn .and [.atom "a", .atom "b"])).getD 0 0
      = ([Query.atom "b"].map
          (fun q => (eval crispRanker [["a"]] q).getD 0 0)).foldl min
          ((eval crispRanker [["a"]] (.atom "a")).getD 0 0)
    ∧ (eval crispRanker [["a"]] (.conn .or [.atom "a", .atom "b"])).getD 0 0
      = ([Query.atom "b"].map
          (fun q => (eval crispRanker [["a"]] q).getD 0 0)).foldl max
          ((eval crispRanker [["a"]] (.atom "a")).getD 0 0) :=
  eval_connective_minmax crispRanker [["a"]] (.atom "a") [.atom "b"]
    (by simp [WF]) (by intro q hq; simp at hq; subst hq; simp [WF]) 0

/-- C4: evaluating `(very Q)` squares each score element-wise, `(somewhat Q)`
takes the square root, `(slightly Q)` raises each score to the power 0.1
(the 10th root), and `(extremely Q)` cubes each score. -/
theorem eval_modifier_semantics (r : String → List String → ℝ)
    (d : List (List String)) (q : Query) :
    eval r d (.mod .very q) = (eval r d q).map (fun x => x * x)
    ∧ eval r d (.mod .somewhat q) = (eval r d q).map (fun x => Real.sqrt x)
    ∧ eval r d (.mod .slightly q) = (eval r d q).map (fun x => x ^ ((1 : ℝ) / 10))
    ∧ eval r d (.mod .extremely q) = (eval r d q).map (fun x => x * x * x) := by
  refine ⟨?_, rfl, ?_, ?_⟩
  · have h : (fun x : ℝ => x ^ 2) = fun x => x * x := funext fun x => sq x
    simp [eval, modFun, h]
  · have h : (fun x : ℝ => x ^ (0.1 : ℝ)) = fun x => x ^ ((1 : ℝ) / 10) := by
      funext x
      norm_num
    simp [eval, modFun, h]
  · have h : (fun x : ℝ => x ^ 3) = fun x => x * x * x := funext fun x => by ring
    simp [eval, modFun, h]

theorem modFun_fix01 (m : ModKind) (x : ℝ) (hx : x = 0 ∨ x = 1) :
    modFun m x = x := by
  rcases hx with rfl | rfl <;> cases m <;> simp [modFun]
  exact Real.zero_rpow (by norm_num)

theorem mem_zipWith_imp {α : Type} (f : α → α → α) :
    ∀ (v w : List α) (x : α), x ∈ List.zipWith f v w →
      ∃ a ∈ v, ∃ b ∈ w, x = f a b := by
  intro v
  induction v with
  | nil => intro w x hx; simp at hx
  | cons a v ih =>
    intro w x hx
    cases w with
    | nil => simp at hx
    | cons b w =>
      rw [List.zipWith_cons_cons, List.mem_cons] at hx
      rcases hx with rfl | hx
      · exact ⟨a, by simp, b, by simp, rfl⟩
      · rcases ih w x hx with ⟨a2, ha, b2, hb, rfl⟩
        exact ⟨a2, by simp [ha], b2, by simp [hb], rfl⟩

theorem foldl_zipWith_pred (f : ℝ → ℝ → ℝ)
    (hf : ∀ a b : ℝ, (a = 0 ∨ a = 1) → (b = 0 ∨ b = 1) → (f a b = 0 ∨ f a b = 1)) :
    ∀ (vs : List (List ℝ)) (v : List ℝ), (∀ x ∈ v, x = 0 ∨ x = 1) →
      (∀ w ∈ vs, ∀ x ∈ w, x = 0 ∨ x = 1) →
      ∀ x ∈ vs.foldl (List.zipWith f) v, x = 0 ∨ x = 1 := by
  intro vs
  induction vs with
  | nil => intro v hv _; exact hv
  | cons w vs ih =>
    intro v hv hw
    rw [List.foldl_cons]
    refine ih (List.zipWith f v w) ?_ (fun u hu => hw u (by simp [hu]))
    intro x hx
    rcases mem_zipWith_imp f v w x hx with ⟨a, ha, b, hb, rfl⟩
    exact hf a b (hv a ha) (hw w (by simp) b hb)

theorem crisp_eval01_aux (d : List (List String)) :
    ∀ (n : ℕ) (q : Query), sizeOf q ≤ n →
      ∀ x ∈ eval crispRanker d q, x = 0 ∨ x = 1 := by
  intro n
  induction n with
  | zero =>
    intro q hq
    exfalso
    cases q <;> simp_arith at hq
  | succ n ih =>
    intro q hq x hx
    match q with
    | .atom t =>
      rw [show eval crispRanker d (.atom t) = d.map (crispRanker t) from rfl] at hx
      rcases List.mem_map.mp hx with ⟨doc, _, rfl⟩
      unfold crispRanker
      split <;> simp
    | .neg c =>
      have hc : sizeOf c ≤ n := by simp_arith at hq; omega
      rw [show eval crispRanker d (.neg c)
        = (eval crispRanker d c).map (fun y => 1 - y) from rfl] at hx
      rcases List.mem_map.mp hx with ⟨y, hy, rfl⟩
      rcases ih c hc y hy with rfl | rfl <;> norm_num
    | .mod m c =>
      have hc : sizeOf c ≤ n := by simp_arith at hq; omega
      rw [show eval crispRanker d (.mod m c)
        = (eval crispRanker d c).map (modFun m) from rfl] at hx
      rcases List.mem_map.mp hx with ⟨y, hy, rfl⟩
      have h01 := ih c hc y hy
      rw [modFun_fix01 m y h01]
      exact h01
    | .conn op [] =>
      rw [show eval crispRanker d (.conn op []) = [] from rfl] at hx
      cases hx
    | .conn op (c :: cs) =>
      have hsplit : sizeOf (c :: cs) = 1 + sizeOf c + sizeOf cs := by simp_arith
      have hsz : sizeOf (c :: cs) ≤ n := by simp_arith at hq; omega
      have hc : sizeOf c ≤ n := by omega
      have hmem : ∀ p ∈ cs, sizeOf p ≤ n := by
        intro p hpm
        have := List.sizeOf_lt_of_mem hpm
        omega
      have hrw : eval crispRanker d (.conn op (c :: cs))
          = (cs.map (eval crispRanker d)).foldl
              (List.zipWith (connFun op)) (eval crispRanker d c) := by
        simp [eval, evalList_eq_map]
      rw [hrw] at hx
      have hcf : ∀ a b : ℝ, (a = 0 ∨ a = 1) → (b = 0 ∨ b = 1) →
          (connFun op a b = 0 ∨ connFun op a b = 1) := by
        intro a b ha hb
        cases op <;> simp [connFun]
        · rcases min_choice a b with h | h <;> rw [h] <;> [exact ha; exact hb]
        · rcases max_choice a b with h | h <;> rw [h] <;> [exact ha; exact hb]
      refine foldl_zipWith_pred (connFun op) hcf _ _ (ih c hc) ?_ x hx
      intro w hw y hy
      rcases List.mem_map.mp hw with ⟨p, hpm, rfl⟩
      exact ih p (hmem p hpm) y hy

theorem crisp_eval01 (d : List (List String)) (q : Query) :
    ∀ x ∈ eval crispRanker d q, x = 0 ∨ x = 1 :=
  crisp_eval01_aux d (sizeOf q) q le_rfl

/-- C10: on a score vector whose entries are all exactly 0 or 1 every
modifier acts as the identity, and consequently under the default crisp
ranker a modifier node never changes the evaluation result. -/
theorem modifiers_fix_crisp :
    (∀ v : List ℝ, (∀ x ∈ v, x = 0 ∨ x = 1) → ∀ m : ModKind, rMod m v = v)
    ∧ ∀ (d : List (List String)) (q : Query) (m : ModKind),
        eval crispRanker d (.mod m q) = eval crispRanker d q := by
  have h1 : ∀ v : List ℝ, (∀ x ∈ v, x = 0 ∨ x = 1) → ∀ m : ModKind, rMod m v = v := by
    intro v hv m
    unfold rMod
    calc v.map (modFun m) = v.map id := by
          exact List.map_congr_left (fun x hx => modFun_fix01 m x (hv x hx))
      _ = v := List.map_id v
  refine ⟨h1, ?_⟩
  intro d q m
  calc eval crispRanker d (.mod m q) = rMod m (eval crispRanker d q) := rfl
    _ = eval crispRanker d q := h1 _ (crisp_eval01 d q) m

/-- Witness for C10 at the concrete 0/1 vector [0, 1] and modifier `very`. -/
theorem modifiers_fix_crisp_witness : rMod .very [(0 : ℝ), 1] = [(0 : ℝ), 1] :=
  modifiers_fix_crisp.1 [(0 : ℝ), 1] (by intro x hx; simpa using hx) .very

/-- Modelled from the spec: the adaptive tolerance of the default numeric
equality predicate of the absent `default_preds.py`, as given in the README:
`eps = k * max(|x|, |y|, delta)` with small relative tolerance `k`
(default 0.01) and floor `delta`. -/
noncomputable def epsTol (k delta x y : ℝ) : ℝ := k * max |x| (max |y| delta)

/-- Modelled from the spec: the triangular profile of the README formula,
`1 - d / eps` for distance `d` at most `eps`, and `0` otherwise. -/
noncomputable def triProfile (eps d : ℝ) : ℝ := if d ≤ eps then 1 - d / eps else 0

/-- Modelled from the spec: the default numeric equality membership function
of the README, `mu_equal(x, y) = triProfile(eps, |x - y|)` with the adaptive
tolerance `eps = epsTol k delta x y`. -/
noncomputable def muEqual (k delta x y : ℝ) : ℝ :=
  triProfile (epsTol k delta x y) |x - y|

/-- C9: the default numeric equality predicate returns exactly 1 when
`x = y`, returns 0 whenever `|x - y|` reaches the adaptive tolerance
`eps = k * max(|x|, |y|, delta)`, and on distances strictly between 0 and
`eps` its profile is continuous and strictly decreasing. -/
theorem mu_equal_boundary (k delta x y : ℝ) (hk : 0 < k) (hd : 0 < delta) :
    (x = y → muEqual k delta x y = 1)
    ∧ (epsTol k delta x y ≤ |x - y| → muEqual k delta x y = 0)
    ∧ ContinuousOn (triProfile (epsTol k delta x y))
        (Set.Ioo 0 (epsTol k delta x y))
    ∧ StrictAntiOn (triProfile (epsTol k delta x y))
        (Set.Ioo 0 (epsTol k delta x y)) := by
  have heps : 0 < epsTol k delta x y := by
    have hmax : delta ≤ max |x| (max |y| delta) :=
      le_max_of_le_right (le_max_right _ _)
    exact mul_pos hk (lt_of_lt_of_le hd hmax)
  refine ⟨?_, ?_, ?_, ?_⟩
  · rintro rfl
    unfold muEqual triProfile
    rw [sub_self, abs_zero, if_pos heps.le]
    simp
  · intro h
    unfold muEqual triProfile
    by_cases hle : |x - y| ≤ epsTol k delta x y
    · rw [if_pos hle]
      have heq : |x - y| = epsTol k delta x y := le_antisymm hle h
      rw [heq, div_self (ne_of_gt heps)]
      ring
    · rw [if_neg hle]
  · have hg : ContinuousOn (fun d : ℝ => 1 - d / epsTol k delta x y)
        (Set.Ioo 0 (epsTol k delta x y)) :=
      continuousOn_const.sub (continuousOn_id.div_const _)
    exact hg.congr (fun d hdm => by
      simp only [triProfile]
      rw [if_pos (le_of_lt hdm.2)])
  · intro a ha b hb hab
    simp only [triProfile]
    rw [if_pos (le_of_lt ha.2), if_pos (le_of_lt hb.2)]
    have hdiv : a / epsTol k delta x y < b / epsTol k delta x y :=
      (div_lt_div_iff_of_pos_right heps).2 hab
    linarith

/-- Witness for C9 at the default relative tolerance 0.01, floor 1 and the
equal pair x = y = 3. -/
theorem mu_equal_boundary_witness : muEqual (0.01) 1 3 3 = 1 :=
  (mu_equal_boundary (0.01) 1 3 3 (by norm_num) (by norm_num)).1 rfl

/-- Python's `str.upper` on the ASCII token alphabet, character by
character (kernel-reducible, unlike `String.toUpper`). -/
def pyUpper (s : String) : String := String.mk (s.data.map Char.toUpper)

mutual
/-- `AlgebraicSearchEngine.recursive_search` from
`dev/old/algebraic_ranked_search.md`: pops the operator token, rejects
anything but AND / OR / NOT with a `ValueError`, collects operand vectors
until the closing parenthesis, then reduces with element-wise minimum
(AND), element-wise maximum (OR), or the complement `1 - x` of the single
operand (NOT).  Term scoring (`vectorizer.transform` dotted with the
document vectors) is the external parameter `ts`; running out of tokens
models Python's `IndexError`; the `fuel` counter only bounds recursion
depth and is an artifact of the embedding. -/
noncomputable def recursiveSearch (ts : String → List ℝ) :
    Nat → List String → Except PyErr (List ℝ × List String)
  | _, [] => .error .indexError
  | fuel, t :: rest =>
    if pyUpper t = "AND" ∨ pyUpper t = "OR" ∨ pyUpper t = "NOT" then
      match fuel with
      | 0 => .error (.valueError "recursion fuel exhausted")
      | fuel + 1 =>
        match collectOperands ts fuel rest with
        | .error e => .error e
        | .ok (operands, rest2) =>
          if pyUpper t = "AND" then
            match operands with
            | [] => .error (.valueError "zero-size array to reduction operation")
            | v :: vs => .ok (vs.foldl (List.zipWith min) v, rest2)
          else if pyUpper t = "OR" then
            match operands with
            | [] => .error (.valueError "zero-size array to reduction operation")
            | v :: vs => .ok (vs.foldl (List.zipWith max) v, rest2)
          else
            match operands with
            | [v] => .ok (v.map (fun x => 1 - x), rest2)
            | _ => .error (.valueError "NOT operator can only have one operand")
    else .error (.valueError ("Invalid operator " ++ pyUpper t))

/-- The operand-collection loop of `recursive_search`: until the closing
parenthesis, an opening parenthesis starts a recursive sub-search and any
other token is scored as a term. -/
noncomputable def collectOperands (ts : String → List ℝ) :
    Nat → List String → Except PyErr (List (List ℝ) × List String)
  | _, [] => .error .indexError
  | fuel, t :: rest =>
    if t = ")" then .ok ([], rest)
    else
      match fuel with
      | 0 => .error (.valueError "recursion fuel exhausted")
      | fuel + 1 =>
        if t = "(" then
          match recursiveSearch ts fuel rest with
          | .error e => .error e
          | .ok (v, rest2) =>
            match collectOperands ts fuel rest2 with
            | .error e => .error e
            | .ok (vs, rest3) => .ok (v :: vs, rest3)
        else
          match collectOperands ts fuel rest with
          | .error e => .error e
          | .ok (vs, rest2) => .ok (ts t :: vs, rest2)
end

mutual
/-- `AlgebraicSearchEngine.recursive_search` from
`old/algebraic_search_newer.ipynb`: identical to `recursiveSearch` except
that the NOT branch computes `operands[0] ** 0.5` (element-wise square
root) instead of the complement `1 - x`. -/
noncomputable def recursiveSearchNewer (ts : String → List ℝ) :
    Nat → List String → Except PyErr (List ℝ × List String)
  | _, [] => .error .indexError
  | fuel, t :: rest =>
    if pyUpper t = "AND" ∨ pyUpper t = "OR" ∨ pyUpper t = "NOT" then
      match fuel with
      | 0 => .error (.valueError "recursion fuel exhausted")
      | fuel + 1 =>
        match collectOperandsNewer ts fuel rest with
        | .error e => .error e
        | .ok (operands, rest2) =>
          if pyUpper t = "AND" then
            match operands with
            | [] => .error (.valueError "zero-size array to reduction operation")
            | v :: vs => .ok (vs.foldl (List.zipWith min) v, rest2)
          else if pyUpper t = "OR" then
            match operands with
            | [] => .error (.valueError "zero-size array to reduction operation")
            | v :: vs => .ok (vs.foldl (List.zipWith max) v, rest2)
          else
            match operands with
            | [v] => .ok (v.map (fun x => x ^ ((0.5 : ℝ))), rest2)
            | _ => .error (.valueError "NOT operator can only have one operand")
    else .error (.valueError ("Invalid operator " ++ pyUpper t))

/-- Operand-collection loop of the newer notebook variant (identical in
structure to `collectOperands`). -/
noncomputable def collectOperandsNewer (ts : String → List ℝ) :
    Nat → List String → Except PyErr (List (List ℝ) × List String)
  | _, [] => .error .indexError
  | fuel, t :: rest =>
    if t = ")" then .ok ([], rest)
    else
      match fuel with
      | 0 => .error (.valueError "recursion fuel exhausted")
      | fuel + 1 =>
        if t = "(" then
          match recursiveSearchNewer ts fuel rest with
          | .error e => .error e
          | .ok (v, rest2) =>
            match collectOperandsNewer ts fuel rest2 with
            | .error e => .error e
            | .ok (vs, rest3) => .ok (v :: vs, rest3)
        else
          match collectOperandsNewer ts fuel rest with
          | .error e => .error e
          | .ok (vs, rest2) => .ok (ts t :: vs, rest2)
end

/-- `AlgebraicSearchEngine.search` from `dev/old/algebraic_ranked_search.md`
on an already tokenized and stemmed query: a query not beginning with an
opening parenthesis raises `ValueError("Invalid query")`, otherwise the
leading parenthesis is dropped and `recursive_search` runs on the rest. -/
noncomputable def searchTokens (ts : String → List ℝ) (tokens : List String) :
    Except PyErr (List ℝ) :=
  match tokens with
  | [] => .error .indexError
  | t :: rest =>
    if t = "(" then
      match recursiveSearch ts (rest.length + 1) rest with
      | .error e => .error e
      | .ok (scores, _) => .ok scores
    else .error (.valueError "Invalid query")

/-- Classifier for the error surface: is a result a Python `NameError`. -/
def isNameError {α : Type} : Except PyErr α → Bool
  | .error (.nameError _) => true
  | _ => false

/-- C3 (amended): negation evaluates to the element-wise complement
`1 - x` in the canonical evaluators: the structural fuzzy evaluator and the
`recursive_search` of `dev/old/algebraic_ranked_search.md` (the
`old/algebraic_search_newer.ipynb` variant instead takes a square root,
see the counterexample). -/
theorem negation_complement_canonical :
    (∀ (r : String → List String → ℝ) (d : List (List String)) (q : Query),
      eval r d (.neg q) = (eval r d q).map (fun x => 1 - x))
    ∧ (∀ (ts : String → List ℝ) (fuel : Nat) (t : String) (rest : List String),
        t ≠ "(" → t ≠ ")" →
        recursiveSearch ts (fuel + 2) ("not" :: t :: ")" :: rest)
          = .ok ((ts t).map (fun x => 1 - x), rest)) := by
  refine ⟨fun r d q => rfl, ?_⟩
  intro ts fuel t rest h1 h2
  have hrp : collectOperands ts fuel (")" :: rest) = .ok ([], rest) := by
    rw [collectOperands.eq_def]
    simp
  have hc1 : collectOperands ts (fuel + 1) (t :: ")" :: rest) = .ok ([ts t], rest) := by
    rw [collectOperands.eq_def]
    simp [h1, h2, hrp]
  rw [recursiveSearch.eq_def]
  simp [show pyUpper "not" = "NOT" from rfl, hc1]

/-- Witness for the amended C3 on the ranked engine with a term scored 1. -/
theorem negation_complement_canonical_witness :
    recursiveSearch (fun _ => [(1 : ℝ)]) 2 ["not", "x", ")"] = .ok ([(0 : ℝ)], []) := by
  have h := negation_complement_canonical.2 (fun _ => [(1 : ℝ)]) 0 "x" []
    (by decide) (by decide)
  simpa using h

/-- C3 counterexample: the `old/algebraic_search_newer.ipynb` evaluator
variant computes `operands[0] ** 0.5` for NOT; on the operand vector
[1/4] it returns [1/2], which is not the complement [3/4], so the
complement is not the `not` semantics of every evaluator variant. -/
theorem negation_sqrt_variant_cex :
    recursiveSearchNewer (fun _ => [(1 / 4 : ℝ)]) 2 ["not", "t", ")"]
        = .ok ([((1 / 4 : ℝ) ^ ((0.5 : ℝ)))], [])
    ∧ ((1 / 4 : ℝ) ^ ((0.5 : ℝ))) = 1 / 2
    ∧ (1 / 2 : ℝ) ≠ 1 - (1 / 4 : ℝ) := by
  refine ⟨rfl, ?_, by norm_num⟩
  rw [show ((0.5 : ℝ)) = ((1 : ℝ) / 2) by norm_num, ← Real.sqrt_eq_rpow,
    show ((1 / 4 : ℝ)) = ((1 / 2 : ℝ)) ^ 2 by norm_num,
    Real.sqrt_sq (by norm_num : (0 : ℝ) ≤ 1 / 2)]

/-- C8 (amended): an unrecognized operator token makes `recursive_search`
raise `ValueError("Invalid operator ...")` - the same `ValueError` class
that parse failures such as `ValueError("Invalid query")` use, with only
the message distinguishing them (not a `NameError`). -/
theorem unknown_operator_error_class (ts : String → List ℝ) (fuel : Nat)
    (t : String) (rest : List String)
    (h : ¬(pyUpper t = "AND" ∨ pyUpper t = "OR" ∨ pyUpper t = "NOT")) :
    recursiveSearch ts fuel (t :: rest)
      = .error (.valueError ("Invalid operator " ++ pyUpper t)) := by
  cases fuel <;> simp [recursiveSearch, h]

/-- Witness for the amended C8 at the concrete operator token foo. -/
theorem unknown_operator_error_class_witness :
    recursiveSearch (fun _ => ([] : List ℝ)) 0 ["foo"]
      = .error (.valueError "Invalid operator FOO") :=
  unknown_operator_error_class (fun _ => ([] : List ℝ)) 0 "foo" [] (by decide)

/-- C8 counterexample: evaluating the query `(foo cat)` surfaces
`ValueError("Invalid operator FOO")`, which is not a `NameError`, and the
parse failure for a query without a leading parenthesis surfaces the same
`ValueError` class (`"Invalid query"`), so unknown operators are not
reported as an error kind distinct from parse errors. -/
theorem unknown_operator_not_nameerror_cex :
    recursiveSearch (fun _ => [(0 : ℝ)]) 9 ["foo", "cat", ")"]
        = .error (.valueError "Invalid operator FOO")
    ∧ isNameError (recursiveSearch (fun _ => [(0 : ℝ)]) 9 ["foo", "cat", ")"]) = false
    ∧ searchTokens (fun _ => [(0 : ℝ)]) ["cat"]
        = .error (.valueError "Invalid query") :=
  ⟨rfl, rfl, rfl⟩

/-- Token type of the query tokenizer: parentheses and bareword atoms. -/
inductive Tok where
  | lp
  | rp
  | word (s : String)
deriving DecidableEq

/-- Flush the current word buffer (when nonempty) in front of a token list. -/
def pushBuf (buf : List Char) (toks : List Tok) : List Tok :=
  match buf with
  | [] => toks
  | _ => .word (String.mk buf) :: toks

/-- Modelled from the spec: the tokenizer of section 4.1 (the tokenizer of
the absent `fuzzy_query.py`), restricted to the token classes the verified
claims exercise: parentheses, whitespace separation and bareword atoms. -/
def tokAux : List Char → List Char → List Tok
  | [], buf => pushBuf buf []
  | c :: cs, buf =>
    if c = '(' then pushBuf buf (.lp :: tokAux cs [])
    else if c = ')' then pushBuf buf (.rp :: tokAux cs [])
    else if c = ' ' then pushBuf buf (tokAux cs [])
    else tokAux cs (buf ++ [c])

/-- Tokenize a query string. -/
def tokenize (s : String) : List Tok := tokAux s.data []

/-- Parse errors of the spec-modelled parser: section 4.2 makes every
parse failure ValueError-class, so a single constructor suffices. -/
inductive PErr where
  | valueError (msg : String)
deriving DecidableEq

/-- Operator and modifier keywords recognized by the parser. -/
def recognizedOps : List String :=
  ["and", "or", "not", "very", "somewhat", "slightly", "extremely"]

/-- Build the AST node for a recognized operator keyword and its parsed
children, enforcing the arities of section 4.2 of the spec: `not` and the
modifiers take exactly one child, `and` and `or` at least one; violations
are ValueError-class. -/
def buildNode (w : String) (es : List Query) : Except PErr Query :=
  if w = "not" then
    match es with
    | [e] => .ok (.neg e)
    | _ => .error (.valueError "not takes exactly one operand")
  else if w = "very" then
    match es with
    | [e] => .ok (.mod .very e)
    | _ => .error (.valueError "very takes exactly one operand")
  else if w = "somewhat" then
    match es with
    | [e] => .ok (.mod .somewhat e)
    | _ => .error (.valueError "somewhat takes exactly one operand")
  else if w = "slightly" then
    match es with
    | [e] => .ok (.mod .slightly e)
    | _ => .error (.valueError "slightly takes exactly one operand")
  else if w = "extremely" then
    match es with
    | [e] => .ok (.mod .extremely e)
    | _ => .error (.valueError "extremely takes exactly one operand")
  else if w = "and" then
    match es with
    | [] => .error (.valueError "operator with zero children")
    | _ => .ok (.conn .and es)
  else if w = "or" then
    match es with
    | [] => .error (.valueError "operator with zero children")
    | _ => .ok (.conn .or es)
  else .error (.valueError "unrecognized operator")

/-- Attach the children parsed up to the closing parenthesis to a
recognized operator keyword. -/
def finishOp (w : String) (res : Except PErr (List Query × List Tok)) :
    Except PErr (Query × List Tok) :=
  match res with
  | .error e => .error e
  | .ok (es, rest) =>
    match buildNode w es with
    | .error e => .error e
    | .ok q => .ok (q, rest)

/-- Wrap the children of a parenthesized group that does not start with a
recognized operator in the implicit `and` of section 4.2. -/
def finishImplicitAnd (res : Except PErr (List Query × List Tok)) :
    Except PErr (Query × List Tok) :=
  match res with
  | .error e => .error e
  | .ok ([], _) => .error (.valueError "operator with zero children")
  | .ok (es, rest) => .ok (.conn .and es, rest)


mutual
/-- Modelled from the spec: the recursive-descent parser of section 4.2
for the absent `fuzzy_query.py`, grammar `expr := ( op expr* ) | atom`;
when the first token after the opening parenthesis is not a recognized
operator the parser inserts an implicit `and` over all children up to the
matching closing parenthesis; every failure is ValueError-class.  The
`fuel` counter only bounds recursion depth and is an artifact of the
embedding. -/
def parseExpr : Nat → List Tok → Except PErr (Query × List Tok)
  | _, [] => .error (.valueError "unexpected end of query")
  | _, .word w :: rest => .ok (.atom w, rest)
  | _, .rp :: _ => .error (.valueError "mismatched parentheses")
  | 0, .lp :: _ => .error (.valueError "recursion fuel exhausted")
  | fuel + 1, .lp :: .word w :: rest2 =>
    if w ∈ recognizedOps then finishOp w (parseChildren fuel rest2)
    else finishImplicitAnd (parseChildren fuel (.word w :: rest2))
  | fuel + 1, .lp :: rest => finishImplicitAnd (parseChildren fuel rest)

/-- Parse child expressions until the matching closing parenthesis;
running out of tokens first is the mismatched-parentheses error. -/
def parseChildren : Nat → List Tok → Except PErr (List Query × List Tok)
  | _, [] => .error (.valueError "mismatched parentheses")
  | _, .rp :: rest => .ok ([], rest)
  | 0, _ => .error (.valueError "recursion fuel exhausted")
  | fuel + 1, toks =>
    match parseExpr fuel toks with
    | .error e => .error e
    | .ok (e, rest) =>
      match parseChildren fuel rest with
      | .error e => .error e
      | .ok (es, rest2) => .ok (e :: es, rest2)
end

/-- Parse the top-level sequence of expressions of a query string (used
for the bare-sequence shortcut of section 4.2). -/
def parseSeq : Nat → List Tok → Except PErr (List Query)
  | _, [] => .ok []
  | 0, _ :: _ => .error (.valueError "recursion fuel exhausted")
  | fuel + 1, t :: ts =>
    match parseExpr fuel (t :: ts) with
    | .error e => .error e
    | .ok (e, rest) =>
      match parseSeq fuel rest with
      | .error e => .error e
      | .ok es => .ok (e :: es)

/-- Modelled from the spec: `FuzzyQuery` construction from a query string:
tokenize, parse the top-level sequence, and wrap a bare multi-expression
sequence in the implicit outer `and`. -/
def fuzzyParse (s : String) : Except PErr Query :=
  match parseSeq (2 * (tokenize s).length + 2) (tokenize s) with
  | .error e => .error e
  | .ok [] => .error (.valueError "empty query")
  | .ok [e] => .ok e
  | .ok es => .ok (.conn .and es)

/-- Parenthesis balance check with a depth counter: `true` iff every
closing parenthesis matches an open one and the final depth is zero. -/
def balOk : List Tok → Nat → Bool
  | [], 0 => true
  | [], _ + 1 => false
  | .lp :: ts, d => balOk ts (d + 1)
  | .rp :: _, 0 => false
  | .rp :: ts, d + 1 => balOk ts d
  | .word _ :: ts, d => balOk ts d

theorem finishOp_ok (w : String) (res : Except PErr (List Query × List Tok))
    (q : Query) (rest : List Tok) (h : finishOp w res = .ok (q, rest)) :
    ∃ es, res = .ok (es, rest) := by
  match res with
  | .error e => simp [finishOp] at h
  | .ok (es, rest2) =>
    refine ⟨es, ?_⟩
    match hb : buildNode w es with
    | .error e => simp [finishOp, hb] at h
    | .ok q2 =>
      simp [finishOp, hb] at h
      rw [h.2]

theorem finishImplicitAnd_ok (res : Except PErr (List Query × List Tok))
    (q : Query) (rest : List Tok) (h : finishImplicitAnd res = .ok (q, rest)) :
    ∃ es, res = .ok (es, rest) := by
  match res with
  | .error e => simp [finishImplicitAnd] at h
  | .ok ([], rest2) => simp [finishImplicitAnd] at h
  | .ok (e :: es, rest2) =>
    refine ⟨e :: es, ?_⟩
    simp [finishImplicitAnd] at h
    rw [h.2]

theorem parse_balance :
    ∀ fuel : Nat,
      (∀ toks q rest, parseExpr fuel toks = .ok (q, rest) →
        ∀ d, balOk toks d = balOk rest d)
      ∧ (∀ toks es rest, parseChildren fuel toks = .ok (es, rest) →
        ∀ d, balOk toks (d + 1) = balOk rest d) := by
  intro fuel
  induction fuel with
  | zero =>
    constructor
    · intro toks q rest h d
      match toks with
      | [] => simp [parseExpr] at h
      | .word w :: ts =>
        simp [parseExpr] at h
        rw [h.2]
        simp [balOk]
      | .rp :: ts => simp [parseExpr] at h
      | .lp :: ts => simp [parseExpr] at h
    · intro toks es rest h d
      match toks with
      | [] => simp [parseChildren] at h
      | .rp :: ts =>
        simp [parseChildren] at h
        rw [h.2]
        simp [balOk]
      | .lp :: ts => simp [parseChildren] at h
      | .word w :: ts => simp [parseChildren] at h
  | succ fuel ih =>
    obtain ⟨ihE, ihC⟩ := ih
    have hE : ∀ toks q rest, parseExpr (fuel + 1) toks = .ok (q, rest) →
        ∀ d, balOk toks d = balOk rest d := by
      intro toks q rest h d
      match toks with
      | [] => simp [parseExpr] at h
      | .word w :: ts =>
        simp [parseExpr] at h
        rw [h.2]
        simp [balOk]
      | .rp :: ts => simp [parseExpr] at h
      | .lp :: ts =>
        have hgoal : balOk ts (d + 1) = balOk rest d := by
          match ts with
          | [] =>
            rcases finishImplicitAnd_ok _ _ _ (by simpa [parseExpr] using h) with
              ⟨es, h2⟩
            exact ihC _ _ _ h2 d
          | .lp :: ts2 =>
            rcases finishImplicitAnd_ok _ _ _ (by simpa [parseExpr] using h) with
              ⟨es, h2⟩
            exact ihC _ _ _ h2 d
          | .rp :: ts2 =>
            rcases finishImplicitAnd_ok _ _ _ (by simpa [parseExpr] using h) with
              ⟨es, h2⟩
            exact ihC _ _ _ h2 d
          | .word w :: ts2 =>
            by_cases hw : w ∈ recognizedOps
            · rw [show parseExpr (fuel + 1) (Tok.lp :: Tok.word w :: ts2)
                  = finishOp w (parseChildren fuel ts2) by simp [parseExpr, hw]] at h
              rcases finishOp_ok _ _ _ _ h with ⟨es, h2⟩
              calc balOk (Tok.word w :: ts2) (d + 1)
                  = balOk ts2 (d + 1) := by simp [balOk]
                _ = balOk rest d := ihC _ _ _ h2 d
            · rw [show parseExpr (fuel + 1) (Tok.lp :: Tok.word w :: ts2)
                  = finishImplicitAnd (parseChildren fuel (Tok.word w :: ts2)) by
                    simp [parseExpr, hw]] at h
              rcases finishImplicitAnd_ok _ _ _ h with ⟨es, h2⟩
              exact ihC _ _ _ h2 d
        calc balOk (Tok.lp :: ts) d = balOk ts (d + 1) := by simp [balOk]
          _ = balOk rest d := hgoal
    refine ⟨hE, ?_⟩
    intro toks es rest h d
    match toks with
    | [] => simp [parseChildren] at h
    | .rp :: ts =>
      simp [parseChildren] at h
      rw [h.2]
      simp [balOk]
    | .lp :: ts =>
      match hpe : parseExpr fuel (Tok.lp :: ts) with
      | .error e => simp [parseChildren, hpe] at h
      | .ok (e, rest1) =>
        match hpc : parseChildren fuel rest1 with
        | .error e2 => simp [parseChildren, hpe, hpc] at h
        | .ok (es2, rest2) =>
          simp [parseChildren, hpe, hpc] at h
          calc balOk (Tok.lp :: ts) (d + 1)
              = balOk rest1 (d + 1) := ihE _ _ _ hpe (d + 1)
            _ = balOk rest2 d := ihC _ _ _ hpc d
            _ = balOk rest d := by rw [h.2]
    | .word w :: ts =>
      match hpe : parseExpr fuel (Tok.word w :: ts) with
      | .error e => simp [parseChildren, hpe] at h
      | .ok (e, rest1) =>
        match hpc : parseChildren fuel rest1 with
        | .error e2 => simp [parseChildren, hpe, hpc] at h
        | .ok (es2, rest2) =>
          simp [parseChildren, hpe, hpc] at h
          calc balOk (Tok.word w :: ts) (d + 1)
              = balOk rest1 (d + 1) := ihE _ _ _ hpe (d + 1)
            _ = balOk rest2 d := ihC _ _ _ hpc d
            _ = balOk rest d := by rw [h.2]

theorem parseSeq_balanced :
    ∀ (fuel : Nat) (toks : List Tok) (es : List Query),
      parseSeq fuel toks = .ok es → balOk toks 0 = true := by
  intro fuel
  induction fuel with
  | zero =>
    intro toks es h
    match toks with
    | [] => rfl
    | t :: ts => simp [parseSeq] at h
  | succ fuel ih =>
    intro toks es h
    match toks with
    | [] => rfl
    | t :: ts =>
      match hpe : parseExpr fuel (t :: ts) with
      | .error e => simp [parseSeq, hpe] at h
      | .ok (e, rest1) =>
        match hps : parseSeq fuel rest1 with
        | .error e2 => simp [parseSeq, hpe, hps] at h
        | .ok es2 =>
          rw [(parse_balance fuel).1 _ _ _ hpe 0]
          exact ih rest1 es2 hps

/-- C7: on the spec-modelled parser a string whose token stream has
mismatched parentheses always parses to a ValueError-class error, never to
an AST: a successful parse would make the balance check succeed. -/
theorem unbalanced_parse_valueerror (s : String)
    (h : balOk (tokenize s) 0 = false) :
    ∃ msg, fuzzyParse s = .error (.valueError msg) := by
  rcases hps : parseSeq (2 * (tokenize s).length + 2) (tokenize s) with e | es
  · rcases e with ⟨msg⟩
    exact ⟨msg, by simp [fuzzyParse, hps]⟩
  · exfalso
    have hb := parseSeq_balanced _ _ _ hps
    rw [hb] at h
    exact Bool.noConfusion h

/-- Witness for C7 at the unbalanced input string with an unclosed
parenthesis. -/
theorem unbalanced_parse_valueerror_witness :
    balOk (tokenize "(cat") 0 = false
    ∧ ∃ msg, fuzzyParse "(cat" = .error (.valueError msg) :=
  ⟨rfl, unbalanced_parse_valueerror "(cat" rfl⟩

/-- The unbalanced query recorded in the notebook
(`FuzzyQuery("(and cat dog (not (and fish) bird)")`): the spec-modelled
parser rejects it with a ValueError (here the arity violation of `not` is
reached first), whereas the notebook output shows the actual program
printing an AST with `bird` silently dropped. -/
theorem recorded_unbalanced_input_errors :
    fuzzyParse "(and cat dog (not (and fish) bird)"
      = .error (.valueError "not takes exactly one operand")
    ∧ balOk (tokenize "(and cat dog (not (and fish) bird)") 0 = false :=
  ⟨rfl, rfl⟩

/-- C6: shortcut parsing: a parenthesized group without a leading operator
and a bare top-level sequence both get the implicit `and`, so
`FuzzyQuery("cat dog (not (fish bird))")` parses to the same AST as
`FuzzyQuery("(and cat dog (not (and fish bird)))")`, with identical
evaluation results on every document collection. -/
theorem shortcut_parsing :
    fuzzyParse "cat dog (not (fish bird))"
        = fuzzyParse "(and cat dog (not (and fish bird)))"
    ∧ fuzzyParse "cat dog (not (fish bird))"
        = .ok (.conn .and [.atom "cat", .atom "dog",
            .neg (.conn .and [.atom "fish", .atom "bird"])])
    ∧ ∀ (r : String → List String → ℝ) (d : List (List String)) (q1 q2 : Query),
        fuzzyParse "cat dog (not (fish bird))" = .ok q1 →
        fuzzyParse "(and cat dog (not (and fish bird)))" = .ok q2 →
        eval r d q1 = eval r d q2 := by
  refine ⟨rfl, rfl, ?_⟩
  intro r d q1 q2 h1 h2
  rw [show fuzzyParse "cat dog (not (fish bird))"
      = Except.ok (Query.conn .and [.atom "cat", .atom "dog",
          .neg (.conn .and [.atom "fish", .atom "bird"])]) from rfl] at h1
  rw [show fuzzyParse "(and cat dog (not (and fish bird)))"
      = Except.ok (Query.conn .and [.atom "cat", .atom "dog",
          .neg (.conn .and [.atom "fish", .atom "bird"])]) from rfl] at h2
  rw [← Except.ok.inj h1, ← Except.ok.inj h2]

/-- Witness for C6: the evaluation-equality component applied at the
parsed ASTs of the two query strings on a concrete document collection. -/
theorem shortcut_parsing_witness :
    eval crispRanker [["cat"]]
        (.conn .and [.atom "cat", .atom "dog",
          .neg (.conn .and [.atom "fish", .atom "bird"])])
      = eval crispRanker [["cat"]]
        (.conn .and [.atom "cat", .atom "dog",
          .neg (.conn .and [.atom "fish", .atom "bird"])]) :=
  shortcut_parsing.2.2 crispRanker [["cat"]] _ _ rfl rfl

/-- The nine example documents of the notebook and the README (each a list
of terms). -/
def docs9 : List (List String) :=
  [["cat", "dog"], ["fish"], ["bird"], ["cat", "dog", "fish"],
   ["cat", "dog", "bird"], ["cat"], ["dog"], ["fish", "bird"],
   ["cat", "dog", "fish", "bird"]]

/-- Parse a query string and evaluate it on a document collection with the
default crisp ranker. -/
noncomputable def evalQueryStr (s : String) (d : List (List String)) :
    Except PErr (List ℝ) :=
  match fuzzyParse s with
  | .error e => .error e
  | .ok q => .ok (eval crispRanker d q)

/-- C5: the concrete nine-document scenario: the four documented queries
evaluate to exactly the documented 0/1 score vectors. -/
theorem nine_document_scenario :
    evalQueryStr "(and cat dog)" docs9 = .ok [1, 0, 0, 1, 1, 0, 0, 0, 1]
    ∧ evalQueryStr "(or fish bird)" docs9 = .ok [0, 1, 1, 1, 1, 0, 0, 1, 1]
    ∧ evalQueryStr "(not (or fish bird))" docs9 = .ok [1, 0, 0, 0, 0, 1, 1, 0, 0]
    ∧ evalQueryStr "(and (and cat dog) (not (or fish bird)))" docs9
        = .ok [1, 0, 0, 0, 0, 0, 0, 0, 0] := by
  refine ⟨?_, ?_, ?_, ?_⟩
  · rw [show evalQueryStr "(and cat dog)" docs9
        = .ok (eval crispRanker docs9 (.conn .and [.atom "cat", .atom "dog"]))
        from rfl]
    simp [eval, evalList, crispRanker, docs9, connFun]
  · rw [show evalQueryStr "(or fish bird)" docs9
        = .ok (eval crispRanker docs9 (.conn .or [.atom "fish", .atom "bird"]))
        from rfl]
    simp [eval, evalList, crispRanker, docs9, connFun]
  · rw [show evalQueryStr "(not (or fish bird))" docs9
        = .ok (eval crispRanker docs9
            (.neg (.conn .or [.atom "fish", .atom "bird"]))) from rfl]
    simp [eval, evalList, crispRanker, docs9, connFun]
  · rw [show evalQueryStr "(and (and cat dog) (not (or fish bird)))" docs9
        = .ok (eval crispRanker docs9
            (.conn .and [.conn .and [.atom "cat", .atom "dog"],
              .neg (.conn .or [.atom "fish", .atom "bird"])])) from rfl]
    simp [eval, evalList, crispRanker, docs9, connFun]
